import Mathlib

/-!
Shallow embedding of the browser shell state machine from
`src/browser/src/lib.rs` (a yew/wasm single-window multi-tab browser
front-end), together with proofs about the claims of its specification.

Modelling conventions:
* `u32` / `usize` values are modelled as `Nat`; the only arithmetic the
  reducer performs on them is `next_tab_id += 1`, which is modelled with an
  explicit `% 2^32` wrap.
* `Vec<T>` is `List T`; `Vec::remove` is `List.eraseIdx` (plus `List.getD`
  for the returned element, always in bounds at its call sites),
  `Vec::insert` is `List.insertIdx`, `iter().position` is `List.findIdx?`.
* Rust string operations are modelled on `String` / `List Char`:
  `str::replace` (replace every non-overlapping occurrence) is `replaceAll`,
  `str::split(char).next()` is the head of `splitOnChar`, and
  `js_sys::encode_uri_component` (JS `encodeURIComponent`) is
  `encode_uri_component` below.
* The `LocalStorage` side effects of `save_state` are invisible to the
  in-memory state; `update` models the pure state transition together with
  the redraw `Bool` the Rust method returns.
-/

/-- `Tab` from lib.rs. -/
structure Tab where
  id : Nat
  title : String
  url : String
  favicon : Option String
  is_loading : Bool
deriving DecidableEq

/-- The sentinel URL of the internal home page (`"graphite://home"`). -/
def homeUrl : String := "graphite://home"

/-- The internal scheme prefix checked by `process_url` and
`get_title_from_url`. -/
def internalScheme : String := "graphite://"

/-- `impl Default for Tab`. -/
def Tab.defaultTab : Tab :=
  { id := 0, title := "Home", url := homeUrl, favicon := none, is_loading := false }

/-- `Download` from lib.rs. -/
structure Download where
  id : Nat
  filename : String
  completed : Bool
deriving DecidableEq

/-- `SearchEngine` from lib.rs. -/
inductive SearchEngine where
  | Yahoo
  | Google
  | Bing
  | DuckDuckGo
  | Brave
deriving DecidableEq

/-- Hexadecimal digit (uppercase), as produced by JS percent-encoding. -/
def hexDigit (n : Nat) : Char :=
  if n < 10 then Char.ofNat (48 + n) else Char.ofNat (55 + n)

/-- `%XX` escape of one byte. -/
def encodeByte (b : Nat) : String :=
  "%" ++ String.singleton (hexDigit (b / 16)) ++ String.singleton (hexDigit (b % 16))

/-- UTF-8 bytes of a character (scalar values only, as in Rust strings). -/
def utf8Bytes (c : Char) : List Nat :=
  let n := c.toNat
  if n < 128 then [n]
  else if n < 2048 then [192 + n / 64, 128 + n % 64]
  else if n < 65536 then [224 + n / 4096, 128 + (n / 64) % 64, 128 + n % 64]
  else [240 + n / 262144, 128 + (n / 4096) % 64, 128 + (n / 64) % 64, 128 + n % 64]

/-- Characters that JS `encodeURIComponent` leaves unescaped:
ASCII alphanumerics and `- _ . ! ~ * ' ( )` (39 is the apostrophe). -/
def uriUnreserved (c : Char) : Bool :=
  c.isAlphanum || c == '-' || c == '_' || c == '.' || c == '!' || c == '~' ||
    c == '*' || c.toNat == 39 || c == '(' || c == ')'

/-- Model of `js_sys::encode_uri_component` (JS `encodeURIComponent`). -/
def encode_uri_component (s : String) : String :=
  s.data.foldl
    (fun acc c =>
      if uriUnreserved c then acc ++ String.singleton c
      else acc ++ (utf8Bytes c).foldl (fun a b => a ++ encodeByte b) "")
    ""

/-- `SearchEngine::get_search_url` from lib.rs. -/
def SearchEngine.get_search_url (e : SearchEngine) (query : String) : String :=
  let encoded := encode_uri_component query
  match e with
  | .Yahoo => "https://search.yahoo.com/search?p=" ++ encoded
  | .Google => "https://www.google.com/search?q=" ++ encoded
  | .Bing => "https://www.bing.com/search?q=" ++ encoded
  | .DuckDuckGo => "https://duckduckgo.com/?q=" ++ encoded
  | .Brave => "https://search.brave.com/search?q=" ++ encoded

/-- `BrowserState` from lib.rs. -/
structure BrowserState where
  tabs : List Tab
  active_tab_id : Nat
  next_tab_id : Nat
  search_engine : SearchEngine
  proxy_server : String
  downloads : List Download
  history : List String
  history_index : Nat
deriving DecidableEq

/-- `impl Default for BrowserState`. -/
def BrowserState.defaultState : BrowserState :=
  { tabs := [Tab.defaultTab]
    active_tab_id := 0
    next_tab_id := 1
    search_engine := .Google
    proxy_server := ""
    downloads :=
      [ { id := 0, filename := "google.png", completed := true }
      , { id := 1, filename := "graphiteiscool.txt", completed := true }
      , { id := 2, filename := "vscode.exe", completed := true } ]
    history := []
    history_index := 0 }

/-- `Msg` from lib.rs: the closed message set of the shell reducer. -/
inductive Msg where
  | NewTab
  | CloseTab (id : Nat)
  | SelectTab (id : Nat)
  | Navigate (url : String)
  | GoBack
  | GoForward
  | Reload
  | GoHome
  | UpdateUrlBar (value : String)
  | SetSearchEngine (engine : SearchEngine)
  | SetProxyServer (proxy : String)
  | ToggleSettingsPanel
  | ToggleDownloadsPanel
  | DeleteDownload (id : Nat)
  | OpenDownloadFolder (id : Nat)
  | DragStart (id : Nat)
  | DragOver (id : Nat)
  | DragEnd
  | CloseAllPanels
  | NoOp

/-- The `App` component state: persisted `BrowserState` plus the ephemeral
UI fields. -/
structure App where
  state : BrowserState
  url_input : String
  show_settings : Bool
  show_downloads : Bool
  dragging_tab : Option Nat
deriving DecidableEq

/-- 2^32, the wrap modulus of the `u32` tab-id counter. -/
def u32Mod : Nat := 4294967296

/-- `str::starts_with(pre)`, on the character sequence. -/
def strStartsWith (s pre : String) : Bool := pre.data.isPrefixOf s.data

/-- `str::contains(c)` for a single character. -/
def strContains (s : String) (c : Char) : Bool := s.data.contains c

/-- `str::trim`: remove whitespace from both ends (ASCII whitespace; the
inputs the resolver cares about are ASCII). -/
def strTrim (s : String) : String :=
  ⟨((s.data.dropWhile Char.isWhitespace).reverse.dropWhile Char.isWhitespace).reverse⟩

/-- Fuel-indexed worker for `replaceAll`; the fuel is an upper bound on
the number of scanning steps, so structural recursion suffices. -/
def replaceAllAux (pat : List Char) : Nat → List Char → List Char
  | _, [] => []
  | 0, l => l
  | fuel + 1, c :: rest =>
    if pat ≠ [] ∧ pat.isPrefixOf (c :: rest) then
      replaceAllAux pat fuel ((c :: rest).drop pat.length)
    else
      c :: replaceAllAux pat fuel rest

/-- `str::replace(pat, "")` on character lists: delete every
non-overlapping occurrence of `pat`, scanning left to right. Each
scanning step consumes at least one character, so `l.length` fuel is
always enough. -/
def replaceAll (pat : List Char) (l : List Char) : List Char :=
  replaceAllAux pat l.length l

/-- `str::split(sep)` collected into a list; on the empty string Rust's
iterator yields one empty piece, so the result is never `[]`. -/
def splitOnChar (sep : Char) : List Char → List (List Char)
  | [] => [[]]
  | c :: rest =>
    if c == sep then [] :: splitOnChar sep rest
    else
      match splitOnChar sep rest with
      | [] => [[c]]
      | p :: ps => (c :: p) :: ps

/-- `App::get_title_from_url` from lib.rs. -/
def get_title_from_url (url : String) : String :=
  if strStartsWith url internalScheme then "Home"
  else
    let stripped := replaceAll "http://".data (replaceAll "https://".data url.data)
    match splitOnChar '/' stripped with
    | [] => "New Tab"
    | first :: _ => String.mk first

/-- `App::process_url` from lib.rs (its only dependence on `self` is
`self.state.search_engine`). -/
def process_url (engine : SearchEngine) (input : String) : String :=
  let input := strTrim input
  if strStartsWith input "http://" || strStartsWith input "https://" ||
      strStartsWith input internalScheme then
    input
  else if strContains input '.' && !(strContains input ' ') then
    "https://" ++ input
  else
    engine.get_search_url input

/-- First-match in-place mutation: `iter_mut().find(p)` followed by a
field update on the found element. -/
def modifyFirst (p : Tab → Bool) (f : Tab → Tab) : List Tab → List Tab
  | [] => []
  | t :: ts => if p t then f t :: ts else t :: modifyFirst p f ts

/-- `App::update` from lib.rs: the shell reducer. Returns the next `App`
and the redraw flag. -/
def update (app : App) (msg : Msg) : App × Bool :=
  match msg with
  | .NewTab =>
      let ntid := app.state.next_tab_id
      let newTab := { Tab.defaultTab with id := ntid }
      ({ app with
          state := { app.state with
            tabs := app.state.tabs ++ [newTab]
            active_tab_id := ntid
            next_tab_id := (ntid + 1) % u32Mod }
          url_input := "" }, true)
  | .CloseTab id =>
      if app.state.tabs.length > 1 then
        match app.state.tabs.findIdx? (fun t => t.id == id) with
        | some idx =>
            let tabs' := app.state.tabs.eraseIdx idx
            if app.state.active_tab_id == id then
              let newIdx := min (idx - 1) (tabs'.length - 1)
              let newTab := tabs'.getD newIdx Tab.defaultTab
              ({ app with
                  state := { app.state with tabs := tabs', active_tab_id := newTab.id }
                  url_input := if newTab.url == homeUrl then "" else newTab.url }, true)
            else
              ({ app with state := { app.state with tabs := tabs' } }, true)
        | none => (app, true)
      else (app, true)
  | .SelectTab id =>
      let s := { app.state with active_tab_id := id }
      match app.state.tabs.find? (fun t => t.id == id) with
      | some tab =>
          ({ app with
              state := s
              url_input := if tab.url == homeUrl then "" else tab.url }, true)
      | none => ({ app with state := s }, true)
  | .Navigate url =>
      let finalUrl := process_url app.state.search_engine url
      let title := get_title_from_url finalUrl
      let tabs' := modifyFirst (fun t => t.id == app.state.active_tab_id)
        (fun t => { t with url := finalUrl, title := title, is_loading := true })
        app.state.tabs
      ({ app with state := { app.state with tabs := tabs' }, url_input := finalUrl }, true)
  | .GoBack => (app, true)
  | .GoForward => (app, true)
  | .Reload =>
      let tabs' := modifyFirst (fun t => t.id == app.state.active_tab_id)
        (fun t => { t with is_loading := true }) app.state.tabs
      ({ app with state := { app.state with tabs := tabs' } }, true)
  | .GoHome =>
      let tabs' := modifyFirst (fun t => t.id == app.state.active_tab_id)
        (fun t => { t with url := homeUrl, title := "Home", is_loading := false })
        app.state.tabs
      ({ app with state := { app.state with tabs := tabs' }, url_input := "" }, true)
  | .UpdateUrlBar value => ({ app with url_input := value }, true)
  | .SetSearchEngine engine =>
      ({ app with state := { app.state with search_engine := engine } }, true)
  | .SetProxyServer proxy =>
      ({ app with state := { app.state with proxy_server := proxy } }, true)
  | .ToggleSettingsPanel =>
      ({ app with show_settings := !app.show_settings, show_downloads := false }, true)
  | .ToggleDownloadsPanel =>
      ({ app with show_downloads := !app.show_downloads, show_settings := false }, true)
  | .DeleteDownload id =>
      ({ app with
          state := { app.state with
            downloads := app.state.downloads.filter (fun d => d.id != id) } }, true)
  | .OpenDownloadFolder _ => (app, true)
  | .DragStart id => ({ app with dragging_tab := some id }, true)
  | .DragOver targetId =>
      match app.dragging_tab with
      | some dragId =>
          if dragId != targetId then
            match app.state.tabs.findIdx? (fun t => t.id == dragId),
                  app.state.tabs.findIdx? (fun t => t.id == targetId) with
            | some fromIdx, some toIdx =>
                let tab := app.state.tabs.getD fromIdx Tab.defaultTab
                ({ app with
                    state := { app.state with
                      tabs := (app.state.tabs.eraseIdx fromIdx).insertIdx toIdx tab } }, true)
            | _, _ => (app, true)
          else (app, true)
      | none => (app, true)
  | .DragEnd => ({ app with dragging_tab := none }, true)
  | .CloseAllPanels =>
      ({ app with show_settings := false, show_downloads := false }, true)
  | .NoOp => (app, false)

/-- The list of tab ids of a state, in visual order. -/
def tabIds (s : BrowserState) : List Nat := s.tabs.map Tab.id

/-- The `App` value obtained from the default `BrowserState` (fresh
start, empty ephemeral UI state). -/
def app0 : App :=
  { state := BrowserState.defaultState
    url_input := ""
    show_settings := false
    show_downloads := false
    dragging_tab := none }

/-- A three-tab state (ids 0, 1, 2 in order, tab 0 active): used to
exercise `CloseTab` on the first tab. -/
def app3 : App :=
  { state :=
      { tabs :=
          [ Tab.defaultTab
          , { Tab.defaultTab with id := 1 }
          , { Tab.defaultTab with id := 2 } ]
        active_tab_id := 0
        next_tab_id := 3
        search_engine := .Google
        proxy_server := ""
        downloads := []
        history := []
        history_index := 0 }
    url_input := ""
    show_settings := false
    show_downloads := false
    dragging_tab := none }

/-- Spec-side rendering of the title derivation, following the words of
§4.1 for claim C5: strip the `https://`/`http://` prefixes (prefixes
only), take the substring before the first `/`, and fall back to
`"New Tab"` when that extraction yields nothing. -/
def stripPrefixIfPresent (pre s : String) : String :=
  if strStartsWith s pre then ⟨s.data.drop pre.data.length⟩ else s

/-- Spec-side title derivation (see `stripPrefixIfPresent`). -/
def titleFor_spec (url : String) : String :=
  if strStartsWith url internalScheme then "Home"
  else
    let stripped := stripPrefixIfPresent "http://" (stripPrefixIfPresent "https://" url)
    let t : String := ⟨stripped.data.takeWhile (fun c => !(c == '/'))⟩
    if t.data.isEmpty then "New Tab" else t

/-- Amended title derivation: every occurrence of `https://`, then of
`http://`, is removed (not only a leading prefix), and the result is the
substring before the first `/` of what remains; the `"New Tab"` fallback
of the source is unreachable because splitting always yields at least
one (possibly empty) piece. -/
def titleFor_amended (url : String) : String :=
  if strStartsWith url internalScheme then "Home"
  else
    ⟨(replaceAll "http://".data (replaceAll "https://".data url.data)).takeWhile
      (fun c => !(c == '/'))⟩

/-- Spec-side URL resolution, following the words of claim C6: rule 2
fires when the trimmed input contains a `.` and no whitespace
character. -/
def resolve_spec (engine : SearchEngine) (input : String) : String :=
  let input := strTrim input
  if strStartsWith input "http://" || strStartsWith input "https://" ||
      strStartsWith input internalScheme then
    input
  else if input.data.any (fun c => c == '.') && !(input.data.any Char.isWhitespace) then
    "https://" ++ input
  else
    engine.get_search_url input

/-- Amended URL resolution: rule 2 fires when the trimmed input contains
a `.` and no space character `' '` (other whitespace such as a tab does
not disqualify a bare domain). -/
def resolve_amended (engine : SearchEngine) (input : String) : String :=
  let input := strTrim input
  if strStartsWith input "http://" || strStartsWith input "https://" ||
      strStartsWith input internalScheme then
    input
  else if input.data.any (fun c => c == '.') && !(input.data.any (fun c => c == ' ')) then
    "https://" ++ input
  else
    engine.get_search_url input

/-- Structured serialization values: a schema-stable JSON-shaped format,
the shape serde gives the `Serialize`/`Deserialize` derives of lib.rs. -/
inductive Json where
  | jnull : Json
  | jbool : Bool → Json
  | jnum : Nat → Json
  | jstr : String → Json
  | jarr : List Json → Json
  | jobj : List (String × Json) → Json

/-- Look a key up in a serialized object (first match). -/
def jLookup (fields : List (String × Json)) (k : String) : Option Json :=
  (fields.find? (fun p => p.1 == k)).map Prod.snd

/-- Expect a number. -/
def asNat : Json → Option Nat
  | .jnum n => some n
  | _ => none

/-- Expect a string. -/
def asStr : Json → Option String
  | .jstr s => some s
  | _ => none

/-- Expect a boolean. -/
def asBool : Json → Option Bool
  | .jbool b => some b
  | _ => none

/-- Expect an optional string (`null` or a string). -/
def asOptStr : Json → Option (Option String)
  | .jnull => some none
  | .jstr s => some (some s)
  | _ => none

/-- Decode every element of a serialized array, failing if any element
fails. -/
def decodeEach (dec : Json → Option α) : List Json → Option (List α)
  | [] => some []
  | j :: js =>
    match dec j, decodeEach dec js with
    | some x, some xs => some (x :: xs)
    | _, _ => none

/-- Serialize a `Tab` (field layout of §3 / the serde derive). -/
def encodeTab (t : Tab) : Json :=
  .jobj
    [ ("id", .jnum t.id)
    , ("title", .jstr t.title)
    , ("url", .jstr t.url)
    , ("favicon", match t.favicon with | none => .jnull | some s => .jstr s)
    , ("is_loading", .jbool t.is_loading) ]

/-- Deserialize a `Tab`. -/
def decodeTab (j : Json) : Option Tab :=
  match j with
  | .jobj fields => do
      let id ← jLookup fields "id" >>= asNat
      let title ← jLookup fields "title" >>= asStr
      let url ← jLookup fields "url" >>= asStr
      let favicon ← jLookup fields "favicon" >>= asOptStr
      let loading ← jLookup fields "is_loading" >>= asBool
      some { id := id, title := title, url := url, favicon := favicon, is_loading := loading }
  | _ => none

/-- Serialize a `Download`. -/
def encodeDownload (d : Download) : Json :=
  .jobj
    [ ("id", .jnum d.id)
    , ("filename", .jstr d.filename)
    , ("completed", .jbool d.completed) ]

/-- Deserialize a `Download`. -/
def decodeDownload (j : Json) : Option Download :=
  match j with
  | .jobj fields => do
      let id ← jLookup fields "id" >>= asNat
      let filename ← jLookup fields "filename" >>= asStr
      let completed ← jLookup fields "completed" >>= asBool
      some { id := id, filename := filename, completed := completed }
  | _ => none

/-- Serialize a `SearchEngine` (unit variants become their names). -/
def encodeEngine : SearchEngine → Json
  | .Yahoo => .jstr "Yahoo"
  | .Google => .jstr "Google"
  | .Bing => .jstr "Bing"
  | .DuckDuckGo => .jstr "DuckDuckGo"
  | .Brave => .jstr "Brave"

/-- Deserialize a `SearchEngine`. -/
def decodeEngine : Json → Option SearchEngine
  | .jstr s =>
    if s == "Yahoo" then some .Yahoo
    else if s == "Google" then some .Google
    else if s == "Bing" then some .Bing
    else if s == "DuckDuckGo" then some .DuckDuckGo
    else if s == "Brave" then some .Brave
    else none
  | _ => none

/-- Modelled from the spec: the persistence adapter's `save` direction
(`App::save_state` serializes the full `BrowserState` under the fixed
storage key; the serializer itself is the serde derive, `#[derive
(Serialize)]`, whose generated code is outside `src/`). -/
def save_state (s : BrowserState) : Json :=
  .jobj
    [ ("tabs", .jarr (s.tabs.map encodeTab))
    , ("active_tab_id", .jnum s.active_tab_id)
    , ("next_tab_id", .jnum s.next_tab_id)
    , ("search_engine", encodeEngine s.search_engine)
    , ("proxy_server", .jstr s.proxy_server)
    , ("downloads", .jarr (s.downloads.map encodeDownload))
    , ("history", .jarr (s.history.map Json.jstr))
    , ("history_index", .jnum s.history_index) ]

/-- Modelled from the spec: the persistence adapter's `load` direction
(`LocalStorage::get::<BrowserState>` in `App::create`; the deserializer
is the serde derive, whose generated code is outside `src/`). `none`
models a deserialization failure, which `App::create` turns into the
default state. -/
def load_state (j : Json) : Option BrowserState :=
  match j with
  | .jobj fields => do
      let tabs ← jLookup fields "tabs" >>=
        fun j => match j with | .jarr js => decodeEach decodeTab js | _ => none
      let active ← jLookup fields "active_tab_id" >>= asNat
      let next ← jLookup fields "next_tab_id" >>= asNat
      let engine ← jLookup fields "search_engine" >>= decodeEngine
      let proxy ← jLookup fields "proxy_server" >>= asStr
      let downloads ← jLookup fields "downloads" >>=
        fun j => match j with | .jarr js => decodeEach decodeDownload js | _ => none
      let history ← jLookup fields "history" >>=
        fun j => match j with | .jarr js => decodeEach asStr js | _ => none
      let hidx ← jLookup fields "history_index" >>= asNat
      some
        { tabs := tabs
          active_tab_id := active
          next_tab_id := next
          search_engine := engine
          proxy_server := proxy
          downloads := downloads
          history := history
          history_index := hidx }
  | _ => none

/-- Iterated `CloseTab` dispatch, for the "any sequence of `CloseTab`
messages" claims. -/
def closeSeq (app : App) (ids : List Nat) : App :=
  ids.foldl (fun a id => (update a (Msg.CloseTab id)).1) app

/-- Iterated `NewTab` dispatch. -/
def newTabSeq : Nat → App → App
  | 0, app => app
  | n + 1, app => newTabSeq n (update app Msg.NewTab).1

/-! ## Helper lemmas -/

theorem find?_eq_none_of_not_mem_ids {tabs : List Tab} {id : Nat}
    (h : id ∉ tabs.map Tab.id) :
    tabs.find? (fun t => t.id == id) = none := by
  apply List.find?_eq_none.mpr
  intro t ht hbeq
  exact h (List.mem_map.mpr ⟨t, ht, beq_iff_eq.mp hbeq⟩)

theorem closeTab_tabs_ne_nil {app : App} (h : app.state.tabs ≠ []) (id : Nat) :
    (update app (Msg.CloseTab id)).1.state.tabs ≠ [] := by
  have hlen0 : 0 < app.state.tabs.length := List.length_pos.mpr h
  simp only [update]
  split
  · split
    · split
      · rename_i hgt _ _ _
        apply List.length_pos.mp
        rw [List.length_eraseIdx]
        split <;> omega
      · rename_i hgt _ _ _
        apply List.length_pos.mp
        rw [List.length_eraseIdx]
        split <;> omega
    · exact h
  · exact h

/-! ## C2: SelectTab with an absent id -/

/-- C2, counterexample: the claim says `SelectTab(id)` with an absent
`id` leaves the state (in particular `activeTabId`) unchanged; but on
the one-tab default state (tab id 0), `SelectTab 5` changes
`activeTabId` from 0 to 5. -/
theorem c2_counterexample :
    (5 ∉ tabIds app0.state) ∧
    (update app0 (Msg.SelectTab 5)).1.state ≠ app0.state ∧
    (update app0 (Msg.SelectTab 5)).1.state.active_tab_id = 5 := by decide

/-- C2 (amended): `SelectTab(id)` with an `id` absent from `tabs` sets
`activeTabId` to `id` (leaving it dangling) and changes nothing else:
`tabs`, all other state fields, and the URL-bar text are unchanged. -/
theorem c2_selectTab_absent (app : App) (id : Nat) (h : id ∉ tabIds app.state) :
    (update app (Msg.SelectTab id)).1
      = { app with state := { app.state with active_tab_id := id } } := by
  have hf : app.state.tabs.find? (fun t => t.id == id) = none :=
    find?_eq_none_of_not_mem_ids h
  simp [update, hf]

/-- C2 witness: the amended theorem applied to the default state and the
absent id 5. -/
theorem c2_selectTab_absent_witness :
    (5 ∉ tabIds app0.state) ∧
    (update app0 (Msg.SelectTab 5)).1
      = { app0 with state := { app0.state with active_tab_id := 5 } } :=
  ⟨by decide, c2_selectTab_absent app0 5 (by decide)⟩

/-! ## C4: tabs never empty under CloseTab -/

/-- C4: after any sequence of `CloseTab` messages a non-empty tabs list
stays non-empty; and `CloseTab` on a state with exactly one tab leaves
the whole component state unchanged. -/
theorem c4_tabs_nonempty :
    (∀ (app : App) (ids : List Nat), app.state.tabs ≠ [] →
        (closeSeq app ids).state.tabs ≠ []) ∧
    (∀ (app : App) (id : Nat), app.state.tabs.length = 1 →
        (update app (Msg.CloseTab id)).1 = app) := by
  constructor
  · intro app ids
    induction ids generalizing app with
    | nil => intro h; simpa [closeSeq] using h
    | cons i is ih =>
        intro h
        simpa [closeSeq] using ih _ (closeTab_tabs_ne_nil h i)
  · intro app id hlen
    have hn : ¬ (app.state.tabs.length > 1) := by omega
    simp [update, hn]

/-- C4 witness: closing twice from the default one-tab state keeps a
tab, and a single `CloseTab` there is a perfect no-op. -/
theorem c4_tabs_nonempty_witness :
    (app0.state.tabs ≠ [] ∧ (closeSeq app0 [0, 0]).state.tabs ≠ []) ∧
    (app0.state.tabs.length = 1 ∧ (update app0 (Msg.CloseTab 0)).1 = app0) :=
  ⟨⟨by decide, c4_tabs_nonempty.1 app0 [0, 0] (by decide)⟩,
   ⟨by decide, c4_tabs_nonempty.2 app0 0 (by decide)⟩⟩

/-! ## C10: CloseTab on a non-active tab is a pure removal -/

/-- C10: with at least two tabs, `CloseTab(id)` on an existing but
non-active tab removes exactly that tab (the one at the found index,
whose id is `id`) and changes nothing else: `activeTabId`, the URL-bar
text, the other state fields, and the remaining tabs (in order) are all
unchanged. -/
theorem c10_close_inactive (app : App) (id i : Nat)
    (h2 : 2 ≤ app.state.tabs.length)
    (hfind : app.state.tabs.findIdx? (fun t => t.id == id) = some i)
    (hne : app.state.active_tab_id ≠ id) :
    (update app (Msg.CloseTab id)).1
      = { app with state := { app.state with tabs := app.state.tabs.eraseIdx i } } ∧
    (app.state.tabs.getD i Tab.defaultTab).id = id := by
  have hlen : app.state.tabs.length > 1 := by omega
  have hbeq : (app.state.active_tab_id == id) = false := by
    simpa using hne
  refine ⟨by simp [update, hlen, hfind, hbeq], ?_⟩
  obtain ⟨hi, hp, -⟩ := List.findIdx?_eq_some_iff_getElem.mp hfind
  have hgd : app.state.tabs.getD i Tab.defaultTab = app.state.tabs[i] := by
    simp [List.getD_eq_getElem?_getD, List.getElem?_eq_getElem hi]
  rw [hgd]
  exact beq_iff_eq.mp hp

/-- C10 witness: in the three-tab state with tab 0 active, closing tab 1
erases exactly the middle tab and nothing else. -/
theorem c10_close_inactive_witness :
    (2 ≤ app3.state.tabs.length ∧
      app3.state.tabs.findIdx? (fun t => t.id == 1) = some 1 ∧
      app3.state.active_tab_id ≠ 1) ∧
    ((update app3 (Msg.CloseTab 1)).1
      = { app3 with state := { app3.state with tabs := app3.state.tabs.eraseIdx 1 } } ∧
    (app3.state.tabs.getD 1 Tab.defaultTab).id = 1) :=
  ⟨⟨by decide, by decide, by decide⟩,
   c10_close_inactive app3 1 1 (by decide) (by decide) (by decide)⟩

/-! ## C3: CloseTab on the active tab -/

/-- C3, counterexample: in the three-tab state (ids 0, 1, 2) with the
first tab active, closing the active (first) tab makes tab 1 — the new
first tab — active, not the new last tab (id 2) as the claim states. -/
theorem c3_counterexample :
    (2 ≤ app3.state.tabs.length ∧
      app3.state.tabs.findIdx? (fun t => t.id == app3.state.active_tab_id) = some 0) ∧
    (update app3 (Msg.CloseTab app3.state.active_tab_id)).1.state.active_tab_id = 1 ∧
    ((update app3 (Msg.CloseTab app3.state.active_tab_id)).1.state.tabs.getLast?.map Tab.id)
      = some 2 ∧
    (update app3 (Msg.CloseTab app3.state.active_tab_id)).1.state.active_tab_id ≠ 2 := by
  decide

/-- C3 (amended): with at least two tabs, closing the active tab (found
at index `i`) removes it, and the new active tab is the one now at index
`max(0, i - 1)` clamped to the new length — the left neighbor, or the
new *first* tab when the closed tab was first. -/
theorem c3_close_active (app : App) (i : Nat)
    (h2 : 2 ≤ app.state.tabs.length)
    (hfind : app.state.tabs.findIdx? (fun t => t.id == app.state.active_tab_id) = some i) :
    (update app (Msg.CloseTab app.state.active_tab_id)).1.state.tabs
      = app.state.tabs.eraseIdx i ∧
    (update app (Msg.CloseTab app.state.active_tab_id)).1.state.active_tab_id
      = ((app.state.tabs.eraseIdx i).getD
          (min (i - 1) ((app.state.tabs.eraseIdx i).length - 1)) Tab.defaultTab).id := by
  have hlen : app.state.tabs.length > 1 := by omega
  simp [update, hlen, hfind]

/-- C3 witness: the amended theorem applied to the three-tab state with
the first tab active. -/
theorem c3_close_active_witness :
    (2 ≤ app3.state.tabs.length ∧
      app3.state.tabs.findIdx? (fun t => t.id == app3.state.active_tab_id) = some 0) ∧
    ((update app3 (Msg.CloseTab app3.state.active_tab_id)).1.state.tabs
      = app3.state.tabs.eraseIdx 0 ∧
    (update app3 (Msg.CloseTab app3.state.active_tab_id)).1.state.active_tab_id
      = ((app3.state.tabs.eraseIdx 0).getD
          (min (0 - 1) ((app3.state.tabs.eraseIdx 0).length - 1)) Tab.defaultTab).id) :=
  ⟨⟨by decide, by decide⟩, c3_close_active app3 0 (by decide) (by decide)⟩

/-! ## C7: DragOver live reorder -/

/-- C7: when a drag is in progress (`draggingTab = some dragId`) and both
`dragId` and the drop target's id exist (at indices `fromI` and `toI`)
and differ, `DragOver` removes the drag tab from its current position
and reinserts it at the drop target's current position: the new tab list
is `insertIdx toI` of the dragged tab into `eraseIdx fromI`, the dragged
tab ends up at index `toI`, and deleting it again returns exactly the
old list without the dragged tab (so all other tabs keep their relative
order). When the drag tab and the target coincide, the component state
is entirely unchanged. -/
theorem c7_reorder :
    (∀ (app : App) (dragId targetId fromI toI : Nat),
      app.dragging_tab = some dragId →
      dragId ≠ targetId →
      app.state.tabs.findIdx? (fun t => t.id == dragId) = some fromI →
      app.state.tabs.findIdx? (fun t => t.id == targetId) = some toI →
      (update app (Msg.DragOver targetId)).1.state.tabs
          = (app.state.tabs.eraseIdx fromI).insertIdx toI
              (app.state.tabs.getD fromI Tab.defaultTab) ∧
      (update app (Msg.DragOver targetId)).1.state.tabs.getD toI Tab.defaultTab
          = app.state.tabs.getD fromI Tab.defaultTab ∧
      ((update app (Msg.DragOver targetId)).1.state.tabs.eraseIdx toI
          = app.state.tabs.eraseIdx fromI)) ∧
    (∀ (app : App) (targetId : Nat),
      app.dragging_tab = some targetId →
      (update app (Msg.DragOver targetId)).1 = app) := by
  constructor
  · intro app dragId targetId fromI toI hd hne hfrom hto
    have hb : (dragId != targetId) = true := bne_iff_ne.mpr hne
    have htabs :
        (update app (Msg.DragOver targetId)).1.state.tabs
          = (app.state.tabs.eraseIdx fromI).insertIdx toI
              (app.state.tabs.getD fromI Tab.defaultTab) := by
      simp [update, hd, hb, hfrom, hto]
    obtain ⟨hfromLt, -, -⟩ := List.findIdx?_eq_some_iff_getElem.mp hfrom
    obtain ⟨htoLt, -, -⟩ := List.findIdx?_eq_some_iff_getElem.mp hto
    have hlenE : (app.state.tabs.eraseIdx fromI).length = app.state.tabs.length - 1 :=
      List.length_eraseIdx_of_lt hfromLt
    have htoLe : toI ≤ (app.state.tabs.eraseIdx fromI).length := by omega
    refine ⟨htabs, ?_, ?_⟩
    · rw [htabs]
      have hlenI : ((app.state.tabs.eraseIdx fromI).insertIdx toI
          (app.state.tabs.getD fromI Tab.defaultTab)).length
            = (app.state.tabs.eraseIdx fromI).length + 1 :=
        List.length_insertIdx _ _ htoLe
      have htoLt' : toI < ((app.state.tabs.eraseIdx fromI).insertIdx toI
          (app.state.tabs.getD fromI Tab.defaultTab)).length := by omega
      rw [List.getD_eq_getElem?_getD, List.getElem?_eq_getElem htoLt']
      simp [List.getElem_insertIdx_self _ _ _ htoLe]
    · rw [htabs]
      exact List.eraseIdx_insertIdx toI (app.state.tabs.eraseIdx fromI)
  · intro app targetId hd
    simp [update, hd]

/-- C7 witness: in the three-tab state, dragging tab 0 over tab 2 moves
tab 0 to the end; and dragging tab 0 over itself changes nothing. -/
theorem c7_reorder_witness :
    (({ app3 with dragging_tab := some 0 } : App).dragging_tab = some 0 ∧
      ((0 : Nat) ≠ 2) ∧
      ({ app3 with dragging_tab := some 0 } : App).state.tabs.findIdx?
        (fun t => t.id == 0) = some 0 ∧
      ({ app3 with dragging_tab := some 0 } : App).state.tabs.findIdx?
        (fun t => t.id == 2) = some 2) ∧
    ((update { app3 with dragging_tab := some 0 } (Msg.DragOver 2)).1.state.tabs
        = (({ app3 with dragging_tab := some 0 } : App).state.tabs.eraseIdx 0).insertIdx 2
            (({ app3 with dragging_tab := some 0 } : App).state.tabs.getD 0 Tab.defaultTab) ∧
      (update { app3 with dragging_tab := some 0 } (Msg.DragOver 2)).1.state.tabs.getD 2
          Tab.defaultTab
        = ({ app3 with dragging_tab := some 0 } : App).state.tabs.getD 0 Tab.defaultTab ∧
      ((update { app3 with dragging_tab := some 0 } (Msg.DragOver 2)).1.state.tabs.eraseIdx 2
        = ({ app3 with dragging_tab := some 0 } : App).state.tabs.eraseIdx 0)) ∧
    (update { app3 with dragging_tab := some 0 } (Msg.DragOver 0)).1
      = { app3 with dragging_tab := some 0 } :=
  ⟨⟨by decide, by decide, by decide, by decide⟩,
   c7_reorder.1 { app3 with dragging_tab := some 0 } 0 2 0 2 rfl (by decide) (by decide)
     (by decide),
   c7_reorder.2 { app3 with dragging_tab := some 0 } 0 rfl⟩

/-! ## C5: title derivation -/

theorem splitOnChar_head (sep : Char) (xs : List Char) :
    ∃ rest, splitOnChar sep xs = xs.takeWhile (fun c => !(c == sep)) :: rest := by
  induction xs with
  | nil => exact ⟨[], rfl⟩
  | cons c cs ih =>
    cases hcs : (c == sep)
    · obtain ⟨rest, hr⟩ := ih
      exact ⟨rest, by simp [splitOnChar, hcs, hr, List.takeWhile_cons]⟩
    · exact ⟨splitOnChar sep cs, by simp [splitOnChar, hcs, List.takeWhile_cons]⟩

/-- C5, counterexample: the claim describes stripping the scheme
*prefixes*, but the source replaces every occurrence of `https://` /
`http://` anywhere in the URL. On `"xhttps://y/z"` (no scheme prefix)
the code deletes the interior `https://` and titles it `"xy"`, while the
claimed algorithm titles it `"xhttps:"`. -/
theorem c5_counterexample :
    get_title_from_url "xhttps://y/z" = "xy" ∧
    titleFor_spec "xhttps://y/z" = "xhttps:" ∧
    get_title_from_url "xhttps://y/z" ≠ titleFor_spec "xhttps://y/z" := by decide

/-- C5 (amended): internal-scheme URLs map to `"Home"`; otherwise every
occurrence of `https://`, then of `http://`, is removed and the title is
the substring before the first `/` of the result (the `"New Tab"`
fallback is unreachable because splitting yields at least one piece). -/
theorem c5_title_amended :
    ∀ url, get_title_from_url url = titleFor_amended url := by
  intro url
  unfold get_title_from_url titleFor_amended
  cases h : strStartsWith url internalScheme
  · simp only [h, Bool.false_eq_true, if_false]
    obtain ⟨rest, hr⟩ :=
      splitOnChar_head '/' (replaceAll "http://".data (replaceAll "https://".data url.data))
    rw [hr]
  · simp [h]

/-! ## C6: URL resolution -/

theorem strContains_eq_any (s : String) (c : Char) :
    strContains s c = s.data.any (fun a => a == c) := by
  rw [Bool.eq_iff_iff]
  simp only [strContains, List.contains_eq_any_beq, List.any_eq_true, beq_iff_eq]
  constructor
  · rintro ⟨a, ha, h⟩; exact ⟨a, ha, h.symm⟩
  · rintro ⟨a, ha, h⟩; exact ⟨a, ha, h.symm⟩

/-- C6, counterexample: the claim's rule 2 requires "no whitespace", but
the source only rejects the space character `' '`. On `"a.b\tc"`
(contains a tab) the code prepends `https://`, while the claimed
algorithm falls through to the search engine. -/
theorem c6_counterexample :
    process_url .Google "a.b\tc" = "https://a.b\tc" ∧
    resolve_spec .Google "a.b\tc" = "https://www.google.com/search?q=a.b%09c" ∧
    process_url .Google "a.b\tc" ≠ resolve_spec .Google "a.b\tc" := by decide

/-- C6 (amended): resolution classifies the trimmed input by the first
matching rule — already-a-URL inputs are returned unchanged; else inputs
containing a `.` and no space character `' '` get `https://` prepended;
else the engine's search template is applied to the percent-encoded
query — and the three concrete examples of the claim hold. -/
theorem c6_resolve_amended :
    (∀ (engine : SearchEngine) (input : String),
        process_url engine input = resolve_amended engine input) ∧
    (∀ engine, process_url engine "example.com" = "https://example.com") ∧
    process_url .Google "foo bar" = "https://www.google.com/search?q=foo%20bar" ∧
    (∀ engine, process_url engine "https://x.com" = "https://x.com") := by
    refine ⟨?_, ?_, by decide, ?_⟩
    · intro engine input
      simp only [process_url, resolve_amended, strContains_eq_any]
    · intro engine; cases engine <;> decide
    · intro engine; cases engine <;> decide

/-! ## C8: persistence round-trip -/

theorem decodeTab_encodeTab (t : Tab) : decodeTab (encodeTab t) = some t := by
  rcases t with ⟨id, title, url, fav, lo⟩
  cases fav <;> rfl

theorem decodeDownload_encodeDownload (d : Download) :
    decodeDownload (encodeDownload d) = some d := by
  rcases d with ⟨id, filename, completed⟩
  rfl

theorem decodeEngine_encodeEngine (e : SearchEngine) :
    decodeEngine (encodeEngine e) = some e := by
  cases e <;> rfl

theorem decodeEach_encode {α : Type} (dec : Json → Option α) (enc : α → Json)
    (h : ∀ x, dec (enc x) = some x) :
    ∀ xs : List α, decodeEach dec (xs.map enc) = some xs := by
  intro xs
  induction xs with
  | nil => rfl
  | cons x xs ih => simp [List.map_cons, decodeEach, h x, ih]

/-- C8: the serialized snapshot written by `save_state` deserializes back
to the same `BrowserState`, every field round-tripping exactly — for
every state, reachable ones included. -/
theorem c8_round_trip :
    ∀ s : BrowserState, load_state (save_state s) = some s := by
  intro s
  rcases s with ⟨tabs, active, next, engine, proxy, downloads, history, hidx⟩
  have h1 : decodeEach decodeTab (tabs.map encodeTab) = some tabs :=
    decodeEach_encode _ _ decodeTab_encodeTab tabs
  have h2 : decodeEach decodeDownload (downloads.map encodeDownload) = some downloads :=
    decodeEach_encode _ _ decodeDownload_encodeDownload downloads
  have h3 : decodeEach asStr (history.map Json.jstr) = some history :=
    decodeEach_encode asStr Json.jstr (fun _ => rfl) history
  have h4 : decodeEngine (encodeEngine engine) = some engine :=
    decodeEngine_encodeEngine engine
  simp [load_state, save_state, jLookup, h1, h2, h3, h4, asNat, asStr]

/-! ## C9: NewTab id allocation -/

theorem next_tab_id_not_mem {app : App}
    (hlt : ∀ t ∈ app.state.tabs, t.id < app.state.next_tab_id) :
    app.state.next_tab_id ∉ tabIds app.state := by
  intro hmem
  obtain ⟨t, ht, hid⟩ := List.mem_map.mp hmem
  exact absurd (hid ▸ hlt t ht) (lt_irrefl _)

/-- C9: across any sequence of `n` `NewTab` messages (no `u32` overflow:
`nextTabId + n < 2^32`), `nextTabId` ends at its old value plus `n` —
so it strictly increases at every step — the allocated ids are exactly
the fresh range `[nextTabId, nextTabId + n)` appended after the existing
ids (each new tab receives the current `nextTabId`, so an id below
`nextTabId` — in particular the id of any previously closed tab — is
never handed out again), no two tabs in the resulting state share an id,
and every id stays below the new `nextTabId`. -/
theorem c9_newTab_ids (app : App) (n : Nat)
    (hnd : (tabIds app.state).Nodup)
    (hlt : ∀ t ∈ app.state.tabs, t.id < app.state.next_tab_id)
    (hbound : app.state.next_tab_id + n < u32Mod) :
    (newTabSeq n app).state.next_tab_id = app.state.next_tab_id + n ∧
    tabIds (newTabSeq n app).state
      = tabIds app.state ++ List.range' app.state.next_tab_id n ∧
    (tabIds (newTabSeq n app).state).Nodup ∧
    (∀ t ∈ (newTabSeq n app).state.tabs, t.id < (newTabSeq n app).state.next_tab_id) ∧
    (∀ a : App, (update a Msg.NewTab).1.state.tabs
      = a.state.tabs ++ [{ Tab.defaultTab with id := a.state.next_tab_id }]) := by
  induction n generalizing app with
  | zero => exact ⟨rfl, by simp [newTabSeq], hnd, hlt, fun a => rfl⟩
  | succ n ih =>
    have hstep : newTabSeq (n + 1) app = newTabSeq n (update app Msg.NewTab).1 := rfl
    have hnext' : (update app Msg.NewTab).1.state.next_tab_id
        = app.state.next_tab_id + 1 := by
      have : (app.state.next_tab_id + 1) % u32Mod = app.state.next_tab_id + 1 :=
        Nat.mod_eq_of_lt (by omega)
      simpa [update] using this
    have htabs' : (update app Msg.NewTab).1.state.tabs
        = app.state.tabs ++ [{ Tab.defaultTab with id := app.state.next_tab_id }] := rfl
    have hids' : tabIds (update app Msg.NewTab).1.state
        = tabIds app.state ++ [app.state.next_tab_id] := by
      simp [tabIds, htabs']
    have hnd' : (tabIds (update app Msg.NewTab).1.state).Nodup := by
      rw [hids', List.nodup_append]
      exact ⟨hnd, List.nodup_singleton _,
        fun a ha hb => by
          have : a = app.state.next_tab_id := by simpa using hb
          exact next_tab_id_not_mem hlt (this ▸ ha)⟩
    have hlt' : ∀ t ∈ (update app Msg.NewTab).1.state.tabs,
        t.id < (update app Msg.NewTab).1.state.next_tab_id := by
      intro t ht
      rw [htabs'] at ht
      rw [hnext']
      rcases List.mem_append.mp ht with h | h
      · exact Nat.lt_succ_of_lt (hlt t h)
      · have : t = { Tab.defaultTab with id := app.state.next_tab_id } := by simpa using h
        rw [this]
        exact Nat.lt_succ_self _
    have hbound' : (update app Msg.NewTab).1.state.next_tab_id + n < u32Mod := by
      rw [hnext']; omega
    obtain ⟨ha, hb, hc, hd, he⟩ := ih (update app Msg.NewTab).1 hnd' hlt' hbound'
    refine ⟨?_, ?_, ?_, ?_, fun a => rfl⟩
    · rw [hstep, ha, hnext']; omega
    · rw [hstep, hb, hids', hnext', List.append_assoc]
      have : List.range' app.state.next_tab_id (n + 1)
          = app.state.next_tab_id :: List.range' (app.state.next_tab_id + 1) n :=
        List.range'_succ _ _ _
      rw [this]
      rfl
    · rw [hstep]; exact hc
    · rw [hstep]; exact hd

/-- C9 witness: two `NewTab` messages from the default state allocate
ids 1 and 2 and move `nextTabId` from 1 to 3. -/
theorem c9_newTab_ids_witness :
    ((tabIds app0.state).Nodup ∧
      (∀ t ∈ app0.state.tabs, t.id < app0.state.next_tab_id) ∧
      app0.state.next_tab_id + 2 < u32Mod) ∧
    ((newTabSeq 2 app0).state.next_tab_id = app0.state.next_tab_id + 2 ∧
      tabIds (newTabSeq 2 app0).state
        = tabIds app0.state ++ List.range' app0.state.next_tab_id 2 ∧
      (tabIds (newTabSeq 2 app0).state).Nodup ∧
      (∀ t ∈ (newTabSeq 2 app0).state.tabs,
        t.id < (newTabSeq 2 app0).state.next_tab_id) ∧
      (∀ a : App, (update a Msg.NewTab).1.state.tabs
        = a.state.tabs ++ [{ Tab.defaultTab with id := a.state.next_tab_id }])) :=
  ⟨⟨by decide, by decide, by decide⟩,
   c9_newTab_ids app0 2 (by decide) (by decide) (by decide)⟩

/-! ## C1: the active id is the id of exactly one tab -/

theorem countP_id_eq_one {tabs : List Tab} {a : Nat}
    (hnd : (tabs.map Tab.id).Nodup) (hmem : a ∈ tabs.map Tab.id) :
    tabs.countP (fun t => t.id == a) = 1 := by
  induction tabs with
  | nil => simp at hmem
  | cons t ts ih =>
    rw [List.map_cons, List.nodup_cons] at hnd
    rw [List.map_cons, List.mem_cons] at hmem
    rw [List.countP_cons]
    rcases hmem with h | h
    · have hp : (t.id == a) = true := beq_iff_eq.mpr h.symm
      have hz : ts.countP (fun x => x.id == a) = 0 := by
        apply List.countP_eq_zero.mpr
        intro x hx hbeq
        have h1 : x.id = a := beq_iff_eq.mp hbeq
        exact hnd.1 (by rw [← h, ← h1]; exact List.mem_map_of_mem Tab.id hx)
      rw [hz, hp]
      simp
    · have hne : t.id ≠ a := fun he => hnd.1 (he ▸ h)
      have hp : (t.id == a) = false := beq_eq_false_iff_ne.mpr hne
      rw [hp, ih hnd.2 h]
      simp

theorem map_id_modifyFirst (p : Tab → Bool) (f : Tab → Tab)
    (hf : ∀ t, (f t).id = t.id) :
    ∀ l : List Tab, (modifyFirst p f l).map Tab.id = l.map Tab.id := by
  intro l
  induction l with
  | nil => rfl
  | cons t ts ih =>
    cases h : p t <;> simp [modifyFirst, h, hf t, ih]

theorem map_eraseIdx {α β : Type} (f : α → β) :
    ∀ (l : List α) (i : Nat), (l.eraseIdx i).map f = (l.map f).eraseIdx i
  | [], _ => rfl
  | _ :: _, 0 => rfl
  | x :: xs, i + 1 => by
    simp only [List.eraseIdx_cons_succ, List.map_cons, map_eraseIdx f xs i]

theorem insertIdx_perm_cons {α : Type} (a : α) :
    ∀ (n : Nat) (l : List α), n ≤ l.length → (l.insertIdx n a).Perm (a :: l)
  | 0, l, _ => by simp [List.insertIdx_zero]
  | n + 1, [], h => by simp at h
  | n + 1, c :: cs, h => by
    rw [List.insertIdx_succ_cons]
    exact ((insertIdx_perm_cons a n cs (by simpa using h)).cons c).trans
      (List.Perm.swap a c cs)

theorem getD_cons_eraseIdx_perm {α : Type} (d : α) :
    ∀ (l : List α) (i : Nat), i < l.length → (l.getD i d :: l.eraseIdx i).Perm l
  | [], _, h => by simp at h
  | _ :: _, 0, _ => by simp
  | c :: cs, i + 1, h => by
    have hi : i < cs.length := by simpa using h
    have e1 : (c :: cs).getD (i + 1) d = cs.getD i d := by
      simp [List.getD_eq_getElem?_getD]
    have e2 : (c :: cs).eraseIdx (i + 1) = c :: cs.eraseIdx i := rfl
    rw [e1, e2]
    exact (List.Perm.swap c (cs.getD i d) (cs.eraseIdx i)).trans
      ((getD_cons_eraseIdx_perm d cs i hi).cons c)

theorem drag_reorder_perm {l : List Tab} {i j : Nat}
    (hi : i < l.length) (hj : j < l.length) :
    ((l.eraseIdx i).insertIdx j (l.getD i Tab.defaultTab)).Perm l := by
  have hlen : (l.eraseIdx i).length = l.length - 1 := List.length_eraseIdx_of_lt hi
  have hj' : j ≤ (l.eraseIdx i).length := by omega
  exact (insertIdx_perm_cons _ j _ hj').trans (getD_cons_eraseIdx_perm _ l i hi)

/-- C1, counterexample: the claim quantifies over any single message and
any state with non-empty tabs whose `activeTabId` exists; but from the
default one-tab state (tab id 0 active), `SelectTab 1` leaves
`activeTabId = 1`, which is the id of no tab at all — the reducer sets
the active pointer before (and regardless of) the existence check. -/
theorem c1_counterexample :
    (app0.state.tabs ≠ [] ∧ app0.state.active_tab_id ∈ tabIds app0.state) ∧
    (update app0 (Msg.SelectTab 1)).1.state.tabs.countP
      (fun t => t.id == (update app0 (Msg.SelectTab 1)).1.state.active_tab_id) = 0 ∧
    (update app0 (Msg.SelectTab 1)).1.state.tabs.countP
      (fun t => t.id == (update app0 (Msg.SelectTab 1)).1.state.active_tab_id) ≠ 1 := by
  decide

/-- C1 (amended): in any well-formed state (distinct tab ids, all below
`nextTabId`, the active id present), processing any single message other
than a `SelectTab` whose id is absent from `tabs` leaves `activeTabId`
equal to the id of exactly one element of `tabs`; `SelectTab` with an
absent id instead leaves the pointer dangling (see the
counterexample). -/
theorem c1_active_exactly_one (app : App) (msg : Msg)
    (hnd : (tabIds app.state).Nodup)
    (hlt : ∀ t ∈ app.state.tabs, t.id < app.state.next_tab_id)
    (hmem : app.state.active_tab_id ∈ tabIds app.state)
    (hsel : ∀ id, msg = Msg.SelectTab id → id ∈ tabIds app.state) :
    (update app msg).1.state.tabs.countP
      (fun t => t.id == (update app msg).1.state.active_tab_id) = 1 := by
  have key : ((update app msg).1.state.tabs.map Tab.id).Nodup ∧
      (update app msg).1.state.active_tab_id
        ∈ (update app msg).1.state.tabs.map Tab.id := by
    cases msg with
    | NewTab =>
      have hids' : (update app Msg.NewTab).1.state.tabs.map Tab.id
          = app.state.tabs.map Tab.id ++ [app.state.next_tab_id] := by
        simp [update]
      rw [hids']
      constructor
      · rw [List.nodup_append]
        refine ⟨hnd, List.nodup_singleton _, fun a ha hb => ?_⟩
        have hab : a = app.state.next_tab_id := by simpa using hb
        exact next_tab_id_not_mem hlt (by rw [← hab]; exact ha)
      · exact List.mem_append_right _ (List.mem_singleton_self _)
    | CloseTab id =>
      simp only [update]
      split
      · rename_i hlen
        split
        · rename_i idx heq
          obtain ⟨hidxLt, hp, -⟩ := List.findIdx?_eq_some_iff_getElem.mp heq
          have hid := beq_iff_eq.mp hp
          have hndE : ((app.state.tabs.eraseIdx idx).map Tab.id).Nodup := by
            rw [map_eraseIdx]
            exact (List.eraseIdx_sublist _ idx).nodup hnd
          split
          · refine ⟨hndE, ?_⟩
            have hlenE : (app.state.tabs.eraseIdx idx).length
                = app.state.tabs.length - 1 := List.length_eraseIdx_of_lt hidxLt
            have hNew : min (idx - 1) ((app.state.tabs.eraseIdx idx).length - 1)
                < (app.state.tabs.eraseIdx idx).length := by
              omega
            have hgd : (app.state.tabs.eraseIdx idx).getD
                (min (idx - 1) ((app.state.tabs.eraseIdx idx).length - 1)) Tab.defaultTab
                ∈ app.state.tabs.eraseIdx idx := by
              rw [List.getD_eq_getElem?_getD, List.getElem?_eq_getElem hNew]
              exact List.getElem_mem hNew
            exact List.mem_map_of_mem Tab.id hgd
          · rename_i hbeq
            have hneq : app.state.active_tab_id ≠ id := by
              simpa using hbeq
            refine ⟨hndE, ?_⟩
            obtain ⟨t, ht, htid⟩ := List.mem_map.mp hmem
            obtain ⟨j, hj, hget⟩ := List.mem_iff_getElem.mp ht
            have hjne : j ≠ idx := by
              intro hcontra
              apply hneq
              rw [← htid, ← hget]
              subst hcontra
              exact hid
            have htmem : t ∈ app.state.tabs.eraseIdx idx :=
              List.mem_eraseIdx_iff_getElem.mpr ⟨j, hj, hjne, hget⟩
            rw [← htid]
            exact List.mem_map_of_mem Tab.id htmem
        · exact ⟨hnd, hmem⟩
      · exact ⟨hnd, hmem⟩
    | SelectTab id =>
      have hid := hsel id rfl
      simp only [update]
      split
      · exact ⟨hnd, hid⟩
      · exact ⟨hnd, hid⟩
    | Navigate url =>
      simp only [update]
      rw [map_id_modifyFirst]
      · exact ⟨hnd, hmem⟩
      · intro t; rfl
    | Reload =>
      simp only [update]
      rw [map_id_modifyFirst]
      · exact ⟨hnd, hmem⟩
      · intro t; rfl
    | GoHome =>
      simp only [update]
      rw [map_id_modifyFirst]
      · exact ⟨hnd, hmem⟩
      · intro t; rfl
    | DragOver targetId =>
      simp only [update]
      split
      · rename_i dragId hd
        split
        · split
          · rename_i fromIdx toIdx hfrom hto
            obtain ⟨hfromLt, -, -⟩ := List.findIdx?_eq_some_iff_getElem.mp hfrom
            obtain ⟨htoLt, -, -⟩ := List.findIdx?_eq_some_iff_getElem.mp hto
            have hperm := (drag_reorder_perm (l := app.state.tabs) hfromLt htoLt).map Tab.id
            exact ⟨hperm.nodup_iff.mpr hnd, hperm.mem_iff.mpr hmem⟩
          · exact ⟨hnd, hmem⟩
        · exact ⟨hnd, hmem⟩
      · exact ⟨hnd, hmem⟩
    | GoBack => exact ⟨hnd, hmem⟩
    | GoForward => exact ⟨hnd, hmem⟩
    | UpdateUrlBar value => exact ⟨hnd, hmem⟩
    | SetSearchEngine engine => exact ⟨hnd, hmem⟩
    | SetProxyServer proxy => exact ⟨hnd, hmem⟩
    | ToggleSettingsPanel => exact ⟨hnd, hmem⟩
    | ToggleDownloadsPanel => exact ⟨hnd, hmem⟩
    | DeleteDownload id => exact ⟨hnd, hmem⟩
    | OpenDownloadFolder id => exact ⟨hnd, hmem⟩
    | DragStart id => exact ⟨hnd, hmem⟩
    | DragEnd => exact ⟨hnd, hmem⟩
    | CloseAllPanels => exact ⟨hnd, hmem⟩
    | NoOp => exact ⟨hnd, hmem⟩
  exact countP_id_eq_one key.1 key.2

/-- C1 witness: the amended theorem applied to `NewTab` on the default
state. -/
theorem c1_active_exactly_one_witness :
    ((tabIds app0.state).Nodup ∧
      (∀ t ∈ app0.state.tabs, t.id < app0.state.next_tab_id) ∧
      app0.state.active_tab_id ∈ tabIds app0.state ∧
      (∀ id, Msg.NewTab = Msg.SelectTab id → id ∈ tabIds app0.state)) ∧
    (update app0 Msg.NewTab).1.state.tabs.countP
      (fun t => t.id == (update app0 Msg.NewTab).1.state.active_tab_id) = 1 :=
  ⟨⟨by decide, by decide, by decide, fun _ h => nomatch h⟩,
   c1_active_exactly_one app0 Msg.NewTab (by decide) (by decide) (by decide)
     (fun _ h => nomatch h)⟩
